import Mathlib

/-!
Verification of the plan state engine of the `pv` repository.

The Python sources are shallowly embedded in Lean: Python `str` values
become `List Char`, dictionaries become structures, in-place mutation
becomes explicit state passing, and operations that can raise or
`sys.exit` return `Option`/`Except`.  Source locations are cited next to
each definition.
-/

namespace PV

/-- Python strings are modelled as lists of characters. -/
abbrev Str := List Char

/-- Coerce a Lean string literal to the `Str` model. -/
def str (s : String) : Str := s.data

/-- Model of Python `s.split(sep)` for a single-character separator:
splits on every occurrence, keeping empty pieces
(`"a..b".split(".") == ["a", "", "b"]`, `"".split(".") == [""]`). -/
def pySplit (sep : Char) : Str → List Str
  | [] => [[]]
  | c :: cs =>
    if c = sep then [] :: pySplit sep cs
    else
      match pySplit sep cs with
      | [] => [[c]]
      | p :: ps => (c :: p) :: ps

/-- Numeric value of a decimal digit character. -/
def charVal (c : Char) : Nat := c.toNat - 48

/-- Model of Python `int(s)` restricted to natural numbers: succeeds
exactly on nonempty all-digit strings.  (Python's `int` additionally
strips whitespace and accepts `_` separators; those forms never occur in
the identifiers this code manipulates.) -/
def pyToNat? (cs : Str) : Option Nat :=
  if cs = [] then none
  else if cs.all (·.isDigit) then some (cs.foldl (fun a c => 10 * a + charVal c) 0)
  else none

/-- Model of Python `int(s)` on signed decimal strings: an optional
leading `-` or `+` followed by digits. -/
def pyToInt? (cs : Str) : Option Int :=
  match cs with
  | [] => none
  | c :: rest =>
    if c = '-' then (pyToNat? rest).map (fun n => -Int.ofNat n)
    else if c = '+' then (pyToNat? rest).map Int.ofNat
    else (pyToNat? cs).map Int.ofNat

/-- Decimal rendering of a natural number: the recursion
`str(n) = str(n / 10) + digit(n % 10)`, with enough fuel to terminate
(structural recursion keeps the definition kernel-evaluable). -/
def natReprAux : Nat → Nat → Str
  | 0, _ => []
  | fuel + 1, n =>
    if n < 10 then [Nat.digitChar n]
    else natReprAux fuel (n / 10) ++ [Nat.digitChar (n % 10)]

/-- Decimal rendering of a natural number, as Python `str(n)` produces
(most significant digit first, no leading zeros, `"0"` for zero). -/
def natRepr (n : Nat) : Str := natReprAux (n + 1) n

/-- Decimal rendering of an integer, as Python `str(i)` produces. -/
def intRepr (i : Int) : Str :=
  if i < 0 then '-' :: natRepr i.natAbs else natRepr i.natAbs

/-- Model of Python `str.title()` (ASCII behaviour): the first letter of
every alphabetic run is uppercased, the rest lowercased. -/
def pyTitleGo : Bool → Str → Str
  | _, [] => []
  | prevAlpha, c :: cs =>
    if c.isAlpha then
      (if prevAlpha then c.toLower else c.toUpper) :: pyTitleGo true cs
    else
      c :: pyTitleGo false cs

/-- Python `s.title()`. -/
def pyTitle (s : Str) : Str := pyTitleGo false s

/-! ## Data model (spec §3, `plan.schema.json` shape)

A plan document is a JSON object; the engine reads and writes the fields
below.  `meta` carries no data any claim depends on and is omitted;
`save_plan`'s update of `meta.updated_at` is noted where relevant. -/

/-- A subtask record (`id`, `title`, `status`). -/
structure Subtask where
  id : Str
  title : Str
  status : Str
deriving DecidableEq, Repr

/-- The `tracking` mapping of a task: two well-known optional timestamp
fields plus free-form extra keys. -/
structure Tracking where
  started_at : Option Str
  completed_at : Option Str
  extra : List (Str × Str)
deriving DecidableEq, Repr

/-- A task record. -/
structure Task where
  id : Str
  title : Str
  status : Str
  agent_type : Option Str
  skill : Option Str
  depends_on : List Str
  tracking : Tracking
  subtasks : List Subtask
deriving DecidableEq, Repr

/-- A phase `progress` record.  Python computes `percentage` with float
division; it is modelled exactly as a rational. -/
structure Progress where
  completed : Nat
  total : Nat
  percentage : ℚ
deriving DecidableEq, Repr

/-- A phase record. -/
structure Phase where
  id : Str
  name : Str
  description : Str
  status : Str
  progress : Progress
  tasks : List Task
deriving DecidableEq, Repr

/-- The derived plan `summary`. -/
structure Summary where
  total_phases : Nat
  total_tasks : Nat
  completed_tasks : Nat
  overall_progress : ℚ
deriving DecidableEq, Repr

/-- The root plan aggregate. -/
structure Plan where
  phases : List Phase
  summary : Summary
deriving DecidableEq, Repr

/-- Task/phase status literals (`src/pv_tool/cli.py` `ICONS` keys,
`VALID_STATUSES`). -/
def statusPending : Str := str "pending"

/-- The `in_progress` status literal. -/
def statusInProgress : Str := str "in_progress"

/-- The `completed` status literal. -/
def statusCompleted : Str := str "completed"

/-- The `blocked` status literal. -/
def statusBlocked : Str := str "blocked"

/-- The `skipped` status literal. -/
def statusSkipped : Str := str "skipped"

/-- `VALID_STATUSES` from `src/pv_tool/cli.py` line 21. -/
def VALID_STATUSES : List Str :=
  [statusPending, statusInProgress, statusCompleted, statusBlocked, statusSkipped]

/-! ## Dependency resolver (`src/pv_tool/cli.py` lines 130-149) -/

/-- The inner lookup of `get_next_task`: `all_deps_met` is set to `False`
exactly when some task anywhere in the plan has id `dep` and a status
other than `"completed"` (the `break` in the source only exits the
innermost loop and does not change which pairs are examined). -/
def depUnmet (plan : Plan) (dep : Str) : Bool :=
  plan.phases.any fun p => p.tasks.any fun t => t.id = dep && t.status ≠ statusCompleted

/-- `all_deps_met` for one task: no dependency id resolves to a
non-completed task.  Note that a dependency id matching no task at all
leaves `all_deps_met` true in the source. -/
def allDepsMet (plan : Plan) (task : Task) : Bool :=
  task.depends_on.all fun dep => !depUnmet plan dep

/-- Scan of one phase's tasks in `get_next_task`: an `in_progress` task
is returned immediately; otherwise the first `pending` task whose
dependencies are met. -/
def nextInPhase (plan : Plan) (phase : Phase) : Option Task :=
  phase.tasks.findSome? fun t =>
    if t.status = statusInProgress then some t
    else if t.status = statusPending && allDepsMet plan t then some t
    else none

/-- `get_next_task(plan)` (`src/pv_tool/cli.py` lines 130-149): scan
phases in stored order, skipping phases whose status is `completed` or
`skipped`; within a phase return the first in-progress task, else the
first pending task whose dependencies are met. -/
def get_next_task (plan : Plan) : Option (Phase × Task) :=
  plan.phases.findSome? fun phase =>
    if phase.status = statusCompleted || phase.status = statusSkipped then none
    else (nextInPhase plan phase).map fun t => (phase, t)

/-- `find_task(plan, task_id)` (`src/pv_tool/cli.py` lines 152-158;
`plan_view.state.find_task`, imported by the edit commands, is the same
scan): first `(phase, task)` whose task id matches. -/
def find_task (plan : Plan) (task_id : Str) : Option (Phase × Task) :=
  plan.phases.findSome? fun phase =>
    (phase.tasks.find? fun t => t.id = task_id).map fun t => (phase, t)

/-- `find_phase(plan, phase_id)` (`src/pv_tool/cli.py` lines 161-166):
first phase with the given id. -/
def find_phase (plan : Plan) (phase_id : Str) : Option Phase :=
  plan.phases.find? fun phase => phase.id = phase_id

/-! ## Progress aggregator (`src/pv_tool/cli.py` lines 81-111)

`plan_view.state.recalculate_progress`, called by
`plan_view.io.save_plan`, is not under `src/`; per spec §4.1 it has the
same contract as the `pv_tool` function embedded here. -/

/-- The per-phase body of the `recalculate_progress` loop: recompute
`progress` and derive the phase `status`. -/
def recalcPhase (ph : Phase) : Phase :=
  let phase_total := ph.tasks.length
  let phase_completed := (ph.tasks.filter fun t => t.status = statusCompleted).length
  let pct : ℚ := if phase_total > 0 then (phase_completed : ℚ) / phase_total * 100 else 0
  let status :=
    if phase_completed = phase_total && phase_total > 0 then statusCompleted
    else if (ph.tasks.any fun t => t.status = statusInProgress) || phase_completed > 0 then
      statusInProgress
    else ph.status
  { ph with
    progress := { completed := phase_completed, total := phase_total, percentage := pct }
    status := status }

/-- `recalculate_progress(plan)`: the loop recomputes every phase and
accumulates `total_tasks`/`completed_tasks`, then rebuilds `summary`. -/
def recalculate_progress (plan : Plan) : Plan :=
  let phases := plan.phases.map recalcPhase
  let total_tasks := (plan.phases.map fun ph => ph.tasks.length).sum
  let completed_tasks :=
    (plan.phases.map fun ph => (ph.tasks.filter fun t => t.status = statusCompleted).length).sum
  { plan with
    phases := phases
    summary :=
      { total_phases := plan.phases.length
        total_tasks := total_tasks
        completed_tasks := completed_tasks
        overall_progress :=
          if total_tasks > 0 then (completed_tasks : ℚ) / total_tasks * 100 else 0 } }

/-! ## Status setters -/

/-- The `status` branch of `cmd_set`
(`src/plan_view/commands/edit.py` lines 139-147, identically
`src/pv_tool/cli.py` lines 583-591), acting on the found task: reject a
value outside `VALID_STATUSES`, otherwise assign it and stamp
`tracking.started_at`/`tracking.completed_at`.  No subtask field is
touched. -/
def cmd_set_status (now value : Str) (t : Task) : Option Task :=
  if value ∈ VALID_STATUSES then
    let t1 := { t with status := value }
    if value = statusInProgress then
      some { t1 with tracking := { t1.tracking with started_at := some now } }
    else if value = statusCompleted then
      some { t1 with tracking := { t1.tracking with completed_at := some now } }
    else some t1
  else none

/-- `_set_task_status` acting on the found task
(`src/plan_view/commands/dashboard.py` lines 540-553): assign the
status, stamp timestamps, and on `"completed"` cascade the status to
every subtask. -/
def dash_set_task_status (now status : Str) (t : Task) : Task :=
  let t1 := { t with status := status }
  if status = statusInProgress then
    { t1 with tracking := { t1.tracking with started_at := some now } }
  else if status = statusCompleted then
    { t1 with
      tracking := { t1.tracking with completed_at := some now }
      subtasks := t1.subtasks.map fun st => { st with status := statusCompleted } }
  else t1

/-! ## Identifier allocator (`src/plan_view/commands/edit.py` lines
88-105, identically `src/pv_tool/cli.py` lines 536-553) -/

/-- The update condition of the max-tracking loop:
`section > max_section or (section == max_section and task_num > max_task)`. -/
def pairGt (p m : Int × Int) : Bool :=
  p.1 > m.1 || (p.1 = m.1 && p.2 > m.2)

/-- The max-tracking loop of `cmd_add_task`: ids with fewer than 3
dot-separated parts are skipped; for the others `int(parts[1])` and
`int(parts[2])` are parsed (a failure raises `ValueError`, modelled as
`.error ()`), and the running `(max_section, max_task)` pair is updated
when the parsed pair is lexicographically greater. -/
def allocMax : List Task → Int × Int → Except Unit (Int × Int)
  | [], acc => .ok acc
  | t :: ts, acc =>
    match pySplit '.' t.id with
    | _ :: p1 :: p2 :: _ =>
      match pyToInt? p1 with
      | none => .error ()
      | some s =>
        match pyToInt? p2 with
        | none => .error ()
        | some n => allocMax ts (if pairGt (s, n) acc then (s, n) else acc)
    | _ => allocMax ts acc

/-- Build the id string `"<phaseId>.<s>.<n>"`. -/
def mkTaskId (phaseId : Str) (s n : Int) : Str :=
  phaseId ++ '.' :: intRepr s ++ '.' :: intRepr n

/-- The id-generation step of `cmd_add_task`: `"<phase.id>.1.1"` for an
empty phase, else `"<phase.id>.<max_section>.<max_task + 1>"`. -/
def allocate_task_id (phaseId : Str) (tasks : List Task) : Except Unit Str :=
  match allocMax tasks (0, 0) with
  | .error e => .error e
  | .ok (maxSection, maxTask) =>
    .ok (if tasks = [] then mkTaskId phaseId 1 1
         else mkTaskId phaseId maxSection (maxTask + 1))

/-- Apply `f` to the first phase whose id is `pid`, leaving the rest of
the list unchanged.  This renders the Python pattern of looking a phase
up with `find_phase` and mutating the returned reference in place. -/
def updateFirstPhase (pid : Str) (f : Phase → Phase) : List Phase → List Phase
  | [] => []
  | ph :: rest =>
    if ph.id = pid then f ph :: rest else ph :: updateFirstPhase pid f rest

/-- Errors of the `cmd_add_task` embedding: the phase lookup failure
(`sys.exit(1)`) and the uncaught `ValueError` of a non-numeric id
segment. -/
inductive AddTaskError where
  | phaseNotFound
  | invalidNumeral
deriving DecidableEq, Repr

/-- `cmd_add_task` (`src/plan_view/commands/edit.py` lines 73-119,
identically `src/pv_tool/cli.py` lines 524-566), as a transformation of
the loaded plan: find the phase, allocate the next task id, and append
the new pending task.  A `ValueError` during allocation propagates
before the append and before `save_plan`, so an error produces no plan.
The concluding `save_plan` call is modelled separately (`save_plan`). -/
def cmd_add_task (plan : Plan) (phaseId title : Str) (agent : Option Str)
    (deps : List Str) : Except AddTaskError Plan :=
  match find_phase plan phaseId with
  | none => .error .phaseNotFound
  | some phase =>
    match allocate_task_id phase.id phase.tasks with
    | .error _ => .error .invalidNumeral
    | .ok next_id =>
      let task : Task :=
        { id := next_id, title := title, status := statusPending, agent_type := agent
          skill := none, depends_on := deps
          tracking := { started_at := none, completed_at := none, extra := [] }
          subtasks := [] }
      .ok { plan with
              phases := updateFirstPhase phase.id
                (fun ph => { ph with tasks := ph.tasks ++ [task] }) plan.phases }

/-! ## Task relocation -/

/-- The `deferred` phase created on demand by `cmd_defer`
(`src/plan_view/commands/edit.py` lines 208-217). -/
def deferInit : Phase :=
  { id := str "deferred", name := str "Deferred"
    description := str "Tasks postponed for later consideration"
    status := statusPending
    progress := { completed := 0, total := 0, percentage := 0 }
    tasks := [] }

/-- Append `init` when no phase with its id exists (the find-or-create
step of the relocators). -/
def ensurePhase (init : Phase) (phases : List Phase) : List Phase :=
  if phases.any fun p => p.id = init.id then phases else phases ++ [init]

/-- Remove the first task with id `tid` from the first phase containing
one, returning the new phase list and the removed task.  This renders
`find_task` followed by `old_phase["tasks"].remove(task)`: `remove`
deletes the first element equal to the found task, which is exactly the
first task carrying `tid` (earlier tasks have different ids). -/
def removeFirstTask (tid : Str) : List Phase → List Phase × Option Task
  | [] => ([], none)
  | ph :: rest =>
    match ph.tasks.find? fun t => t.id = tid with
    | some t => (({ ph with tasks := ph.tasks.eraseP fun u => u.id = tid }) :: rest, some t)
    | none =>
      let (rest2, r) := removeFirstTask tid rest
      (ph :: rest2, r)

/-- The inline id generation of `cmd_defer`
(`src/plan_view/commands/edit.py` lines 224-233): the maximum of
`int(parts[2])` over ids with at least 3 dot-separated parts, with parse
failures suppressed, then `"deferred.1.<max + 1>"`.  The section segment
`parts[1]` is ignored. -/
def deferNewId (existing : List Task) : Str :=
  let maxTask : Int := existing.foldl
    (fun m t =>
      match pySplit '.' t.id with
      | _ :: _ :: p2 :: _ =>
        match pyToInt? p2 with
        | some n => max m n
        | none => m
      | _ => m)
    0
  str "deferred.1." ++ intRepr (maxTask + 1)

/-- `cmd_defer` (`src/plan_view/commands/edit.py` lines 189-242) as a
transformation of the loaded plan: find the task (exit when absent),
find or create the `deferred` phase, remove the task from its old
phase, give it the inline-generated id, and append it to the `deferred`
phase.  `depends_on` is left untouched.  The concluding `save_plan` call
is modelled separately (`save_plan`). -/
def cmd_defer (plan : Plan) (tid : Str) : Option Plan :=
  match removeFirstTask tid (ensurePhase deferInit plan.phases) with
  | (phases2, some task) =>
    some { plan with
            phases := updateFirstPhase (str "deferred")
              (fun ph => { ph with tasks := ph.tasks ++ [{ task with id := deferNewId ph.tasks }] })
              phases2 }
  | (_, none) => none

/-- The special phase created on demand by `_move_task`
(`src/plan_view/commands/dashboard.py` lines 564-580), with the fixed
names/descriptions for `bugs`/`deferred`/`ideas` and title-cased
defaults otherwise. -/
def moveInit (target : Str) : Phase :=
  let name :=
    if target = str "bugs" then str "Bugs"
    else if target = str "deferred" then str "Deferred"
    else if target = str "ideas" then str "Ideas"
    else pyTitle target
  let desc :=
    if target = str "bugs" then str "Bug fixes and issue resolution"
    else if target = str "deferred" then str "Tasks postponed for later consideration"
    else if target = str "ideas" then str "Ideas and suggestions for future consideration"
    else pyTitle target ++ str " phase"
  { id := target, name := name, description := desc, status := statusPending
    progress := { completed := 0, total := 0, percentage := 0 }
    tasks := [] }

/-- Remove every task with id `tid` from the first phase containing
one, returning the new phase list and the first such task.  This
renders `find_task` followed by
`source_phase["tasks"] = [t for t in source_phase["tasks"] if t["id"] != task_id]`. -/
def filterFirstTask (tid : Str) : List Phase → List Phase × Option Task
  | [] => ([], none)
  | ph :: rest =>
    match ph.tasks.find? fun t => t.id = tid with
    | some t => (({ ph with tasks := ph.tasks.filter fun u => u.id ≠ tid }) :: rest, some t)
    | none =>
      let (rest2, r) := filterFirstTask tid rest
      (ph :: rest2, r)

/-- The counter-based id generation of `_move_task`
(`src/plan_view/commands/dashboard.py` lines 585-592): the first
`"<target>.1.<counter>"` (counter starting at 1) not already present
among the target phase's task ids.  The `while True` loop is rendered
with fuel `|ids| + 1`, enough to reach a free counter by pigeonhole;
the fuel-exhausted branch is unreachable. -/
def moveNewIdGo (target : Str) (ids : List Str) : Nat → Nat → Str
  | 0, k => target ++ str ".1." ++ intRepr k
  | fuel + 1, k =>
    let cand := target ++ str ".1." ++ intRepr k
    if cand ∈ ids then moveNewIdGo target ids fuel (k + 1) else cand

/-- The fresh id `_move_task` assigns within the target phase. -/
def moveNewId (target : Str) (existing : List Task) : Str :=
  let ids := existing.map fun t => t.id
  moveNewIdGo target ids (ids.length + 1) 1

/-- `_move_task` (`src/plan_view/commands/dashboard.py` lines 555-596)
as a transformation of the loaded plan: find the task (error when
absent), find or create the target phase, filter the task id out of the
source phase, then append the task to the target phase carrying the
counter-generated id and an emptied `depends_on`
(`task["depends_on"] = []`).  The caller `_handle_action` then invokes
`save_plan`, modelled separately. -/
def move_task (plan : Plan) (tid target : Str) : Option Plan :=
  if (find_task plan tid).isSome then
    match filterFirstTask tid (ensurePhase (moveInit target) plan.phases) with
    | (phases2, some task) =>
      some { plan with
              phases := updateFirstPhase target
                (fun ph =>
                  { ph with
                    tasks := ph.tasks ++
                      [{ task with id := moveNewId target ph.tasks, depends_on := [] }] })
                phases2 }
    | (_, none) => none
  else none

/-! ## Phase ordering and save (`src/plan_view/io.py`) -/

/-- `SPECIAL_PHASE_IDS` of `plan_view.state`.  Modelled from the spec:
`plan_view/state.py` is not under `src/`; spec §3 names the reserved
phase literals `"bugs"`, `"deferred"`, `"ideas"`. -/
def SPECIAL_PHASE_IDS : List Str := [str "bugs", str "deferred", str "ideas"]

/-- `SPECIAL_PHASE_ORDER` (`src/plan_view/io.py` line 12). -/
def SPECIAL_PHASE_ORDER : List Str := [str "bugs", str "ideas", str "deferred"]

/-- `list.index` with the `ValueError` fallback of `_phase_sort_key`:
position in `SPECIAL_PHASE_ORDER`, or its length when absent. -/
def specialOrderIndex (pid : Str) : Nat :=
  ((SPECIAL_PHASE_ORDER.indexOf? pid).getD SPECIAL_PHASE_ORDER.length)

/-- `_phase_sort_key(phase)` (`src/plan_view/io.py` lines 15-31):
special phases map to group 1 ordered by `SPECIAL_PHASE_ORDER`; other
phases map to group 0 ordered by their integer value, with non-numeric
ids treated as 999999. -/
def phase_sort_key (ph : Phase) : Nat × Int :=
  if ph.id ∈ SPECIAL_PHASE_IDS then (1, (specialOrderIndex ph.id : Int))
  else
    match pyToInt? ph.id with
    | some n => (0, n)
    | none => (0, 999999)

/-- Boolean comparison of sort keys (Python tuple order). -/
def phaseKeyLe (p q : Phase) : Bool :=
  (phase_sort_key p).1 < (phase_sort_key q).1 ||
    ((phase_sort_key p).1 = (phase_sort_key q).1 &&
      (phase_sort_key p).2 ≤ (phase_sort_key q).2)

/-- `_sort_phases(plan)` (`src/plan_view/io.py` lines 34-36): Python's
stable `sorted` by `_phase_sort_key`, rendered as a stable merge sort
with the key comparison. -/
def sort_phases (plan : Plan) : Plan :=
  { plan with phases := plan.phases.mergeSort phaseKeyLe }

/-- `save_plan(path, plan)` (`src/plan_view/io.py` lines 96-101) as the
in-memory transformation applied before serializing: sort phases, then
recalculate progress.  The `meta.updated_at` stamp and the file write
are outside the model. -/
def save_plan (plan : Plan) : Plan :=
  recalculate_progress (sort_phases plan)

/-! ## Derived notions used in statements -/

/-- The `(section, task)` pair the allocator's max-tracking loop parses
out of one task id, when the id has at least 3 dot-separated parts and
both segments are numeric. -/
def taskPair? (t : Task) : Option (Int × Int) :=
  match pySplit '.' t.id with
  | _ :: p1 :: p2 :: _ =>
    match pyToInt? p1, pyToInt? p2 with
    | some s, some n => some (s, n)
    | _, _ => none
  | _ => none

/-- Lexicographic order on `(section, task)` pairs: section first, then
task number. -/
def lexLe (p m : Int × Int) : Prop :=
  p.1 < m.1 ∨ (p.1 = m.1 ∧ p.2 ≤ m.2)

instance (p m : Int × Int) : Decidable (lexLe p m) := by
  unfold lexLe; infer_instance

/-- A task id that makes the allocator raise `ValueError`: at least 3
dot-separated parts with a second or third part `int()` rejects. -/
def badTaskId (t : Task) : Prop :=
  match pySplit '.' t.id with
  | _ :: p1 :: p2 :: _ => pyToInt? p1 = none ∨ pyToInt? p2 = none
  | _ => False

instance (t : Task) : Decidable (badTaskId t) :=
  match h : pySplit '.' t.id with
  | _ :: p1 :: p2 :: _ => decidable_of_iff (pyToInt? p1 = none ∨ pyToInt? p2 = none) (by
      unfold badTaskId; rw [h])
  | [] => decidable_of_iff False (by unfold badTaskId; rw [h])
  | [_] => decidable_of_iff False (by unfold badTaskId; rw [h])
  | [_, _] => decidable_of_iff False (by unfold badTaskId; rw [h])

/-- The `depends_on` of the last task of the (first) `deferred` phase,
used to observe what `cmd_defer` appended. -/
def deferredLastDeps (p : Plan) : Option (List Str) :=
  (p.phases.find? fun ph => ph.id = str "deferred").bind fun ph =>
    ph.tasks.getLast?.map fun t => t.depends_on

/-- Empty tracking record. -/
def noTracking : Tracking := { started_at := none, completed_at := none, extra := [] }

/-- A bare pending task with the given id and dependency list. -/
def pendingTask (id : Str) (deps : List Str) : Task :=
  { id := id, title := str "task", status := statusPending, agent_type := none
    skill := none, depends_on := deps, tracking := noTracking, subtasks := [] }

/-- A bare phase with the given id, status and tasks. -/
def barePhase (id status : Str) (tasks : List Task) : Phase :=
  { id := id, name := str "phase", description := str "desc", status := status
    progress := { completed := 0, total := tasks.length, percentage := 0 }
    tasks := tasks }

/-! ## Concrete inputs used by counterexamples and witnesses -/

/-- Claim C1's failing input: the single task depends on `"9.9.9"`,
which matches no task in the plan (the plan of
`tests/test_dependencies.py::test_dependency_on_non_existent_task`). -/
def exPlanC1 : Plan :=
  { phases := [barePhase (str "0") statusPending [pendingTask (str "0.1.1") [str "9.9.9"]]]
    summary := { total_phases := 1, total_tasks := 1, completed_tasks := 0, overall_progress := 0 } }

/-- Claim C2's input: one task with a nonempty dependency list, about to
be deferred. -/
def exPlanC2 : Plan :=
  { phases := [barePhase (str "0") statusPending [pendingTask (str "0.1.1") [str "0.0.0"]]]
    summary := { total_phases := 1, total_tasks := 1, completed_tasks := 0, overall_progress := 0 } }

/-- The single task of `exPlanC2`. -/
def exTaskC2 : Task := pendingTask (str "0.1.1") [str "0.0.0"]

/-- The source phase of `exPlanC2`. -/
def exOldPhC2 : Phase := barePhase (str "0") statusPending [exTaskC2]

/-- Claim C3's input: a pending task with one pending subtask. -/
def exTaskC3 : Task :=
  { pendingTask (str "0.1.1") [] with
    subtasks := [{ id := str "0.1.1.a", title := str "sub", status := statusPending }] }

/-- Claim C5's input: a 2-cycle (`0.1.1` needs `0.1.2`, `0.1.2` needs
`0.1.1`) next to an independent task `0.1.3`. -/
def exPlanC5 : Plan :=
  { phases := [barePhase (str "0") statusInProgress
      [pendingTask (str "0.1.1") [str "0.1.2"],
       pendingTask (str "0.1.2") [str "0.1.1"],
       pendingTask (str "0.1.3") []]]
    summary := { total_phases := 1, total_tasks := 3, completed_tasks := 0, overall_progress := 0 } }

/-- The ids of claim C5's cycle. -/
def exCycleC5 : List Str := [str "0.1.1", str "0.1.2"]

/-- Claim C6's concrete scenario: tasks `0.1.1` and `0.2.1` in phase
`"0"`. -/
def exTasksC6 : List Task := [pendingTask (str "0.1.1") [], pendingTask (str "0.2.1") []]

/-- An all-malformed task list (single id with fewer than 3 parts). -/
def exMalformedTasks : List Task := [pendingTask (str "weird") []]

/-- Claim C8's target phase content: one task `deferred.2.5`. -/
def exTasksC8 : List Task := [pendingTask (str "deferred.2.5") []]

/-- Claim C9's input: a phase whose task id `"0.x.1"` has three parts but
a non-numeric middle segment. -/
def exPlanC9 : Plan :=
  { phases := [barePhase (str "0") statusPending [pendingTask (str "0.x.1") []]]
    summary := { total_phases := 1, total_tasks := 1, completed_tasks := 0, overall_progress := 0 } }

/-- Claim C10's input: phases stored out of order. -/
def exPlanC10 : Plan :=
  { phases := [barePhase (str "deferred") statusPending [], barePhase (str "2") statusPending [],
               barePhase (str "bugs") statusPending [], barePhase (str "0") statusPending [],
               barePhase (str "ideas") statusPending []]
    summary := { total_phases := 5, total_tasks := 0, completed_tasks := 0, overall_progress := 0 } }

/-! ## Lemmas: decimal rendering and parsing -/

theorem charVal_digitChar {d : Nat} (hd : d < 10) : charVal (Nat.digitChar d) = d := by
  interval_cases d <;> rfl

theorem digitChar_isDigit {d : Nat} (hd : d < 10) : (Nat.digitChar d).isDigit = true := by
  interval_cases d <;> rfl

theorem isDigit_ne_dash {c : Char} (hc : c.isDigit = true) : c ≠ '-' := by
  intro h; subst h; simp [Char.isDigit] at hc

theorem isDigit_ne_plus {c : Char} (hc : c.isDigit = true) : c ≠ '+' := by
  intro h; subst h; simp [Char.isDigit] at hc

theorem isDigit_ne_dot {c : Char} (hc : c.isDigit = true) : c ≠ '.' := by
  intro h; subst h; simp [Char.isDigit] at hc

theorem natReprAux_eq (fuel : Nat) :
    ∀ n, n < fuel →
      natReprAux fuel n =
        if n = 0 then ['0'] else ((Nat.digits 10 n).reverse.map Nat.digitChar) := by
  induction fuel with
  | zero => intro n h; omega
  | succ fuel ih =>
    intro n h
    by_cases hn : n < 10
    · simp only [natReprAux, if_pos hn]
      by_cases h0 : n = 0
      · subst h0; rfl
      · rw [if_neg h0, Nat.digits_def' (by norm_num : (1:Nat) < 10) (by omega),
          Nat.mod_eq_of_lt hn, Nat.div_eq_of_lt hn, Nat.digits_zero]
        rfl
    · have hdiv : n / 10 < fuel := by
        have := Nat.div_lt_self (by omega : 0 < n) (by norm_num : 1 < 10)
        omega
      have h10 : n / 10 ≠ 0 := by
        intro hz
        have := Nat.div_eq_of_lt (by omega : n < 10)
        omega
      simp only [natReprAux, if_neg hn]
      rw [ih (n / 10) hdiv, if_neg h10, if_neg (by omega : ¬n = 0),
        Nat.digits_def' (by norm_num : (1:Nat) < 10) (by omega : 0 < n)]
      simp

/-- The structural renderer agrees with the big-endian decimal digits of
`n`. -/
theorem natRepr_eq (n : Nat) :
    natRepr n = if n = 0 then ['0'] else ((Nat.digits 10 n).reverse.map Nat.digitChar) :=
  natReprAux_eq (n + 1) n (by omega)

theorem mem_natRepr_isDigit {n : Nat} {c : Char} (hc : c ∈ natRepr n) : c.isDigit = true := by
  rw [natRepr_eq] at hc
  split at hc
  · simp only [List.mem_singleton] at hc
    subst hc; rfl
  · rcases List.mem_map.mp hc with ⟨d, hd, rfl⟩
    exact digitChar_isDigit (Nat.digits_lt_base (by norm_num) (List.mem_reverse.mp hd))

theorem natRepr_ne_nil (n : Nat) : natRepr n ≠ [] := by
  rw [natRepr_eq]
  split
  · simp
  · simp only [ne_eq, List.map_eq_nil_iff, List.reverse_eq_nil_iff]
    exact Nat.digits_ne_nil_iff_ne_zero.mpr (by assumption)

theorem foldl_digits_reverse (l : List Nat) (hl : ∀ d ∈ l, d < 10) (acc : Nat) :
    (l.reverse.map Nat.digitChar).foldl (fun a c => 10 * a + charVal c) acc =
      acc * 10 ^ l.length + Nat.ofDigits 10 l := by
  induction l generalizing acc with
  | nil => simp
  | cons d ds ih =>
    have hd : d < 10 := hl d (by simp)
    have hds : ∀ x ∈ ds, x < 10 := fun x hx => hl x (by simp [hx])
    rw [List.reverse_cons, List.map_append, List.foldl_append]
    simp only [List.map_cons, List.map_nil, List.foldl_cons, List.foldl_nil]
    rw [ih hds acc, charVal_digitChar hd, Nat.ofDigits_cons, List.length_cons]
    ring

theorem pyToNat?_natRepr (n : Nat) : pyToNat? (natRepr n) = some n := by
  unfold pyToNat?
  rw [if_neg (natRepr_ne_nil n)]
  rw [if_pos (List.all_eq_true.mpr fun c hc => mem_natRepr_isDigit hc)]
  congr 1
  rw [natRepr_eq]
  split
  · subst n; rfl
  · have := foldl_digits_reverse (Nat.digits 10 n)
      (fun d hd => Nat.digits_lt_base (by norm_num) hd) 0
    rw [this, Nat.ofDigits_digits]
    ring

theorem natRepr_head_digit (n : Nat) :
    ∃ c cs, natRepr n = c :: cs ∧ c.isDigit = true := by
  rcases h : natRepr n with _ | ⟨c, cs⟩
  · exact absurd h (natRepr_ne_nil n)
  · exact ⟨c, cs, rfl, mem_natRepr_isDigit (h ▸ List.mem_cons_self c cs)⟩

theorem pyToInt?_intRepr (i : Int) : pyToInt? (intRepr i) = some i := by
  rcases lt_or_ge i 0 with hneg | hpos
  · have hrepr : intRepr i = '-' :: natRepr i.natAbs := by
      unfold intRepr; rw [if_pos hneg]
    rw [hrepr]
    simp [pyToInt?, pyToNat?_natRepr, Int.ofNat_eq_natCast, abs_of_nonpos (le_of_lt hneg)]
  · have hrepr : intRepr i = natRepr i.natAbs := by
      unfold intRepr; rw [if_neg (by omega)]
    rcases natRepr_head_digit i.natAbs with ⟨c, cs, hhead, hdig⟩
    rw [hrepr, hhead]
    have hred : pyToInt? (c :: cs) =
        if c = '-' then (pyToNat? cs).map (fun n => -Int.ofNat n)
        else if c = '+' then (pyToNat? cs).map Int.ofNat
        else (pyToNat? (c :: cs)).map Int.ofNat := rfl
    rw [hred, if_neg (isDigit_ne_dash hdig), if_neg (isDigit_ne_plus hdig), ← hhead,
      pyToNat?_natRepr]
    simp only [Option.map_some', Option.some.injEq, Int.ofNat_eq_natCast]
    omega

theorem mem_intRepr_ne_dot {i : Int} {c : Char} (hc : c ∈ intRepr i) : c ≠ '.' := by
  unfold intRepr at hc
  split at hc
  · rw [List.mem_cons] at hc
    rcases hc with rfl | h
    · simp
    · exact isDigit_ne_dot (mem_natRepr_isDigit h)
  · exact isDigit_ne_dot (mem_natRepr_isDigit hc)

/-! ## Lemmas: `pySplit` -/

theorem pySplit_of_not_mem {sep : Char} {a : Str} (h : sep ∉ a) : pySplit sep a = [a] := by
  induction a with
  | nil => rfl
  | cons c cs ih =>
    have hc : ¬c = sep := fun hcs => h (hcs ▸ List.mem_cons_self c cs)
    have hcs : sep ∉ cs := fun hin => h (List.mem_cons_of_mem c hin)
    simp only [pySplit, if_neg hc, ih hcs]

theorem pySplit_append {sep : Char} {a : Str} (b : Str) (h : sep ∉ a) :
    pySplit sep (a ++ sep :: b) = a :: pySplit sep b := by
  induction a with
  | nil => simp [pySplit]
  | cons c cs ih =>
    have hc : ¬c = sep := fun hcs => h (hcs ▸ List.mem_cons_self c cs)
    have hcs : sep ∉ cs := fun hin => h (List.mem_cons_of_mem c hin)
    rw [List.cons_append]
    simp only [pySplit, if_neg hc, ih hcs]

theorem pySplit_mkTaskId {phaseId : Str} (s n : Int) (h : '.' ∉ phaseId) :
    pySplit '.' (mkTaskId phaseId s n) = [phaseId, intRepr s, intRepr n] := by
  have hs : '.' ∉ intRepr s := fun hc => mem_intRepr_ne_dot hc rfl
  have hn : '.' ∉ intRepr n := fun hc => mem_intRepr_ne_dot hc rfl
  have hassoc : mkTaskId phaseId s n = phaseId ++ '.' :: (intRepr s ++ '.' :: intRepr n) := by
    simp [mkTaskId]
  rw [hassoc, pySplit_append _ h, pySplit_append _ hs, pySplit_of_not_mem hn]

/-! ## Lemmas: the allocator's max-tracking loop -/

theorem lexLe_refl (p : Int × Int) : lexLe p p := Or.inr ⟨rfl, le_refl _⟩

theorem lexLe_trans {p q r : Int × Int} (h1 : lexLe p q) (h2 : lexLe q r) : lexLe p r := by
  rcases h1 with h1 | ⟨h1, h1b⟩ <;> rcases h2 with h2 | ⟨h2, h2b⟩ <;>
    unfold lexLe <;> omega

theorem lexLe_of_pairGt_eq_false {p m : Int × Int} (h : pairGt p m = false) : lexLe p m := by
  simp only [pairGt, Bool.or_eq_false_iff, Bool.and_eq_false_iff,
    decide_eq_false_iff_not, not_lt] at h
  unfold lexLe
  rcases h with ⟨h1, h2 | h2⟩
  · rcases lt_or_eq_of_le h1 with hlt | heq
    · exact Or.inl hlt
    · exact absurd heq h2
  · omega

theorem lexLe_of_pairGt_eq_true {p m : Int × Int} (h : pairGt p m = true) : lexLe m p := by
  simp only [pairGt, Bool.or_eq_true, Bool.and_eq_true, decide_eq_true_eq] at h
  unfold lexLe
  omega


theorem pairGt_eq_false_of_not_true {p m : Int × Int} (h : ¬pairGt p m = true) :
    pairGt p m = false := by
  revert h; cases pairGt p m <;> simp

/-- The pair the loop tracks is an upper bound of the initial pair and of
every pair parsed from the scanned tasks, and is one of them. -/
theorem allocMax_ok_sup (tasks : List Task) :
    ∀ acc m, allocMax tasks acc = .ok m →
      (m = acc ∨ ∃ t ∈ tasks, taskPair? t = some m) ∧ lexLe acc m ∧
        ∀ t ∈ tasks, ∀ p, taskPair? t = some p → lexLe p m := by
  induction tasks with
  | nil =>
    intro acc m h
    simp only [allocMax, Except.ok.injEq] at h
    subst h
    exact ⟨Or.inl rfl, lexLe_refl _, by simp⟩
  | cons t ts ih =>
    intro acc m h
    rcases hsplit : pySplit '.' t.id with _ | ⟨p0, _ | ⟨p1, _ | ⟨p2, rest⟩⟩⟩ <;>
      simp only [allocMax, hsplit] at h
    case nil | cons.nil | cons.cons.nil =>
      rcases ih acc m h with ⟨hin, hacc, hall⟩
      refine ⟨?_, hacc, ?_⟩
      · rcases hin with h1 | ⟨u, hu, hup⟩
        · exact Or.inl h1
        · exact Or.inr ⟨u, List.mem_cons_of_mem t hu, hup⟩
      · intro u hu p hp
        rcases List.mem_cons.mp hu with rfl | hu2
        · simp only [taskPair?, hsplit] at hp
          exact Option.noConfusion hp
        · exact hall u hu2 p hp
    case cons.cons.cons =>
      rcases hp1 : pyToInt? p1 with _ | s
      · simp only [hp1] at h
        exact Except.noConfusion h
      simp only [hp1] at h
      rcases hp2 : pyToInt? p2 with _ | n
      · simp only [hp2] at h
        exact Except.noConfusion h
      simp only [hp2] at h
      have hpair : taskPair? t = some (s, n) := by
        simp only [taskPair?, hsplit, hp1, hp2]
      rcases ih _ m h with ⟨hin, hacc2, hall⟩
      have hstep : lexLe acc (if pairGt (s, n) acc then (s, n) else acc) ∧
          lexLe (s, n) (if pairGt (s, n) acc then (s, n) else acc) := by
        by_cases hgt : pairGt (s, n) acc = true
        · rw [if_pos hgt]
          exact ⟨lexLe_of_pairGt_eq_true hgt, lexLe_refl _⟩
        · rw [if_neg hgt]
          exact ⟨lexLe_refl _, lexLe_of_pairGt_eq_false (pairGt_eq_false_of_not_true hgt)⟩
      refine ⟨?_, lexLe_trans hstep.1 hacc2, ?_⟩
      · rcases hin with h1 | ⟨u, hu, hup⟩
        · by_cases hgt : pairGt (s, n) acc = true
          · rw [if_pos hgt] at h1
            exact Or.inr ⟨t, List.mem_cons_self t ts, h1 ▸ hpair⟩
          · rw [if_neg hgt] at h1
            exact Or.inl h1
        · exact Or.inr ⟨u, List.mem_cons_of_mem t hu, hup⟩
      · intro u hu p hp
        rcases List.mem_cons.mp hu with rfl | hu2
        · rw [hpair] at hp
          cases hp
          exact lexLe_trans hstep.2 hacc2
        · exact hall u hu2 p hp

/-- A task whose id has at least 3 dot-separated parts with a segment
`int()` rejects makes the loop raise, whatever was scanned before it. -/
theorem allocMax_error_of_bad (tasks : List Task) :
    ∀ acc, (∃ t ∈ tasks, badTaskId t) → ∃ e, allocMax tasks acc = .error e := by
  induction tasks with
  | nil => intro acc h; simp at h
  | cons t ts ih =>
    intro acc ⟨u, hu, hbad⟩
    rcases List.mem_cons.mp hu with rfl | hu2
    · rcases hsplit : pySplit '.' u.id with _ | ⟨p0, _ | ⟨p1, _ | ⟨p2, rest⟩⟩⟩ <;>
        simp only [badTaskId, hsplit] at hbad <;>
        simp only [allocMax, hsplit]
      rcases hbad with hbad | hbad
      · simp only [hbad]
        trivial
      · rcases hp1 : pyToInt? p1 with _ | s <;> simp only [hp1]
        · trivial
        · simp only [hbad]
          trivial
    · rcases hsplit : pySplit '.' t.id with _ | ⟨p0, _ | ⟨p1, _ | ⟨p2, rest⟩⟩⟩ <;>
        simp only [allocMax, hsplit]
      case nil | cons.nil | cons.cons.nil => exact ih acc ⟨u, hu2, hbad⟩
      case cons.cons.cons =>
        rcases hp1 : pyToInt? p1 with _ | s <;> simp only [hp1]
        · trivial
        · rcases hp2 : pyToInt? p2 with _ | n <;> simp only [hp2]
          · trivial
          · exact ih _ ⟨u, hu2, hbad⟩

/-- When every id is malformed (fewer than 3 parts), the loop keeps its
initial pair. -/
theorem allocMax_all_malformed (tasks : List Task)
    (h : ∀ t ∈ tasks, (pySplit '.' t.id).length < 3) :
    ∀ acc, allocMax tasks acc = .ok acc := by
  induction tasks with
  | nil => intro acc; rfl
  | cons t ts ih =>
    intro acc
    have ht := h t (List.mem_cons_self t ts)
    have hts : ∀ u ∈ ts, (pySplit '.' u.id).length < 3 :=
      fun u hu => h u (List.mem_cons_of_mem t hu)
    rcases hsplit : pySplit '.' t.id with _ | ⟨p0, _ | ⟨p1, _ | ⟨p2, rest⟩⟩⟩ <;>
      (rw [hsplit] at ht; simp only [allocMax, hsplit])
    case nil | cons.nil | cons.cons.nil => exact ih hts acc
    case cons.cons.cons => exact absurd ht (by simp)

/-! ## Claim C6: behaviour of `allocate-task-id` -/

/-- C6.  For every phase, the ID-generation step of `cmd_add_task`
returns `"<phase.id>.1.1"` when the phase has no tasks; otherwise it
considers only task ids with at least 3 dot-separated parts, takes the
lexicographically largest `(section, task)` pair (section first, then
task), and returns `"<phase.id>.<max_section>.<max_task + 1>"`; when all
existing ids are malformed the result is `"<phase.id>.0.1"`, and for
existing tasks `{0.1.1, 0.2.1}` in phase `"0"` the result is `"0.2.2"`. -/
theorem c6_allocate_task_id_spec (phaseId : Str) (tasks : List Task) :
    (tasks = [] → allocate_task_id phaseId tasks = .ok (mkTaskId phaseId 1 1))
    ∧ (∀ s t, allocMax tasks (0, 0) = .ok (s, t) →
        ((s, t) = (0, 0) ∨ ∃ tk ∈ tasks, taskPair? tk = some (s, t)) ∧
        (∀ tk ∈ tasks, ∀ p, taskPair? tk = some p → lexLe p (s, t)) ∧
        (tasks ≠ [] → allocate_task_id phaseId tasks = .ok (mkTaskId phaseId s (t + 1))))
    ∧ ((tasks ≠ [] ∧ ∀ tk ∈ tasks, (pySplit '.' tk.id).length < 3) →
        allocate_task_id phaseId tasks = .ok (mkTaskId phaseId 0 1))
    ∧ allocate_task_id (str "0") exTasksC6 = .ok (str "0.2.2") := by
  refine ⟨?_, ?_, ?_, rfl⟩
  · intro h; subst h; rfl
  · intro s t h
    rcases allocMax_ok_sup tasks (0, 0) (s, t) h with ⟨hin, _, hall⟩
    refine ⟨?_, hall, ?_⟩
    · rcases hin with h1 | h1
      · exact Or.inl h1
      · exact Or.inr h1
    · intro hne
      simp only [allocate_task_id, h]
      rw [if_neg hne]
  · intro ⟨hne, hmal⟩
    have hkeep := allocMax_all_malformed tasks hmal (0, 0)
    simp only [allocate_task_id, hkeep]
    rw [if_neg hne]
    norm_num

/-- C6 witness: the three branches at concrete inputs. -/
theorem c6_allocate_task_id_spec_witness :
    allocate_task_id (str "0") [] = .ok (mkTaskId (str "0") 1 1)
    ∧ allocate_task_id (str "0") exMalformedTasks = .ok (mkTaskId (str "0") 0 1)
    ∧ allocate_task_id (str "0") exTasksC6 = .ok (mkTaskId (str "0") 2 (1 + 1)) :=
  ⟨(c6_allocate_task_id_spec (str "0") []).1 rfl,
   (c6_allocate_task_id_spec (str "0") exMalformedTasks).2.2.1
     ⟨by decide, by decide⟩,
   ((c6_allocate_task_id_spec (str "0") exTasksC6).2.1 2 1 rfl).2.2 (by decide)⟩

/-! ## Claim C7: allocate-and-append never duplicates an id -/

/-- C7.  For every phase whose id contains no dot and every starting task
list, the id `allocate-task-id` returns differs from every id already in
the phase, so appending the new task preserves distinctness of the
phase's task ids. -/
theorem c7_allocate_task_id_fresh (phaseId : Str) (tasks : List Task) (nid : Str)
    (hdot : '.' ∉ phaseId) (h : allocate_task_id phaseId tasks = .ok nid) :
    nid ∉ tasks.map (fun t => t.id) ∧
      ((tasks.map fun t => t.id).Nodup → ((tasks.map fun t => t.id) ++ [nid]).Nodup) := by
  have hfresh : nid ∉ tasks.map (fun t => t.id) := by
    rcases halloc : allocMax tasks (0, 0) with e | ⟨s, t⟩ <;>
      simp only [allocate_task_id, halloc] at h
    · exact Except.noConfusion h
    by_cases hne : tasks = []
    · subst hne; simp
    · rw [if_neg hne, Except.ok.injEq] at h
      intro hmem
      rcases List.mem_map.mp hmem with ⟨tk, htk, hid⟩
      have hpair : taskPair? tk = some (s, t + 1) := by
        simp only [taskPair?, hid, ← h, pySplit_mkTaskId s (t + 1) hdot,
          pyToInt?_intRepr]
      have := (allocMax_ok_sup tasks (0, 0) (s, t) halloc).2.2 tk htk (s, t + 1) hpair
      unfold lexLe at this
      omega
  refine ⟨hfresh, fun hnd => ?_⟩
  rw [List.nodup_append]
  exact ⟨hnd, List.nodup_singleton nid, by simpa [List.disjoint_right] using hfresh⟩

/-- C7 witness: allocating into phase `"0"` holding `0.1.1` and `0.2.1`
yields `0.2.2`, which is not among the existing ids. -/
theorem c7_allocate_task_id_fresh_witness :
    str "0.2.2" ∉ exTasksC6.map (fun t => t.id) ∧
      ((exTasksC6.map fun t => t.id).Nodup →
        ((exTasksC6.map fun t => t.id) ++ [str "0.2.2"]).Nodup) :=
  c7_allocate_task_id_fresh (str "0") exTasksC6 (str "0.2.2") (by decide) rfl

/-! ## Claim C9: non-numeric id segments abort `cmd_add_task` -/

/-- C9.  If some task id in the target phase has at least 3 dot-separated
parts but a non-numeric second or third part, `cmd_add_task` fails with
the uncaught `ValueError`: the embedding returns an error and produces no
updated plan, so no task is appended and `save_plan` (which the source
only reaches after the append) is never invoked. -/
theorem c9_nonnumeric_segment_aborts (plan : Plan) (phaseId title : Str)
    (agent : Option Str) (deps : List Str) (ph : Phase)
    (hph : find_phase plan phaseId = some ph)
    (hbad : ∃ t ∈ ph.tasks, badTaskId t) :
    cmd_add_task plan phaseId title agent deps = .error .invalidNumeral := by
  rcases allocMax_error_of_bad ph.tasks (0, 0) hbad with ⟨e, herr⟩
  have halloc : allocate_task_id ph.id ph.tasks = .error e := by
    simp only [allocate_task_id, herr]
  simp only [cmd_add_task, hph, halloc]

/-- C9 witness: a phase holding the id `"0.x.1"` makes add-task abort. -/
theorem c9_nonnumeric_segment_aborts_witness :
    cmd_add_task exPlanC9 (str "0") (str "New Task") none [] = .error .invalidNumeral :=
  c9_nonnumeric_segment_aborts exPlanC9 (str "0") (str "New Task") none []
    (barePhase (str "0") statusPending [pendingTask (str "0.x.1") []]) rfl
    ⟨pendingTask (str "0.x.1") [], by decide, by decide⟩

/-! ## Claim C1: missing dependency ids and `get_next_task` -/

/-- C1.  Contrary to the claim (and to
`tests/test_dependencies.py::TestNonExistentDependencies`, which asserts
that such a task is never actionable), `get_next_task` treats a
dependency id that resolves to no task as met: the inner loop only
clears `all_deps_met` when a matching non-completed task exists, so on a
plan whose single pending task depends on the nonexistent id `"9.9.9"`
the task is returned. -/
theorem c1_nonexistent_dep_task_returned :
    find_task exPlanC1 (str "9.9.9") = none ∧
      get_next_task exPlanC1 =
        some (barePhase (str "0") statusPending [pendingTask (str "0.1.1") [str "9.9.9"]],
          pendingTask (str "0.1.1") [str "9.9.9"]) :=
  ⟨rfl, rfl⟩

/-! ## Claim C3: completion stamping and the subtask cascade -/

/-- C3 counterexample.  The claim says every operation that sets a
task's status to `completed` also completes all its subtasks; the
`cmd_set` status branch it cites does not: completing `exTaskC3` through
`cmd_set_status` leaves its single subtask `pending`. -/
theorem c3_counterexample_cmd_set_no_cascade :
    (cmd_set_status (str "T") statusCompleted exTaskC3).map
        (fun t => t.subtasks.map (fun st => st.status)) =
      some [statusPending] :=
  rfl

/-- C3 amended.  The dashboard operation `_set_task_status` stamps
`tracking.completed_at` and cascades `completed` to every subtask; the
CLI `cmd_set` status branch stamps `tracking.completed_at` but leaves
the subtasks unchanged.  (No operation under `src/` writes an individual
subtask's status, so the reverse direction — a subtask completion
changing its parent — cannot occur.) -/
theorem c3_completion_stamp_and_cascade (now : Str) (t : Task) :
    ((dash_set_task_status now statusCompleted t).status = statusCompleted
      ∧ (dash_set_task_status now statusCompleted t).tracking.completed_at = some now
      ∧ ∀ st ∈ (dash_set_task_status now statusCompleted t).subtasks,
          st.status = statusCompleted)
    ∧ ((cmd_set_status now statusCompleted t).map (fun u => u.status) = some statusCompleted
      ∧ (cmd_set_status now statusCompleted t).map (fun u => u.tracking.completed_at) =
          some (some now)
      ∧ (cmd_set_status now statusCompleted t).map (fun u => u.subtasks) = some t.subtasks) := by
  have hnotin : ¬statusCompleted = statusInProgress := by decide
  have hvalid : statusCompleted ∈ VALID_STATUSES := by decide
  constructor
  · unfold dash_set_task_status
    rw [if_neg hnotin, if_pos rfl]
    refine ⟨rfl, rfl, ?_⟩
    intro st hst
    rcases List.mem_map.mp hst with ⟨u, _, rfl⟩
    rfl
  · unfold cmd_set_status
    rw [if_pos hvalid, if_neg hnotin, if_pos rfl]
    exact ⟨rfl, rfl, rfl⟩

/-! ## Claim C8: the three id generators are not the same function -/

/-- C8 counterexample.  On a target phase containing `deferred.2.5` the
claim demands all relocators produce the allocator's `deferred.2.6`;
instead `cmd_defer`'s inline generator yields `deferred.1.6` and
`_move_task`'s counter loop yields `deferred.1.1`. -/
theorem c8_counterexample_generators_differ :
    deferNewId exTasksC8 = str "deferred.1.6"
    ∧ allocate_task_id (str "deferred") exTasksC8 = .ok (str "deferred.2.6")
    ∧ moveNewId (str "deferred") exTasksC8 = str "deferred.1.1"
    ∧ deferNewId exTasksC8 ≠ str "deferred.2.6"
    ∧ moveNewId (str "deferred") exTasksC8 ≠ str "deferred.2.6" :=
  ⟨rfl, rfl, rfl, by decide, by decide⟩

/-- C8 amended.  The relocators do not reuse the §4.3 allocator: each
carries its own inline generator, and the three functions agree only in
special situations such as an empty target phase, where all of them
produce `"<target>.1.1"`. -/
theorem c8_generators_agree_on_empty_phase (target : Str) :
    allocate_task_id target [] = .ok (target ++ str ".1.1")
    ∧ moveNewId target [] = target ++ str ".1.1"
    ∧ deferNewId [] = str "deferred" ++ str ".1.1" := by
  refine ⟨?_, ?_, rfl⟩
  · show Except.ok (mkTaskId target 1 1) = _
    unfold mkTaskId
    rw [show intRepr 1 = ['1'] from rfl]
    simp [str]
  · show moveNewIdGo target [] 1 1 = _
    unfold moveNewIdGo
    rw [if_neg (by simp)]
    simp [str]
    rfl

/-! ## Claim C4: the progress aggregator -/

/-- C4.  After `recalculate_progress` every phase carries
`progress = {completed = count of tasks with status completed,
total = number of tasks, percentage = 100*completed/total or 0 when
total = 0}`; the phase status becomes `completed` iff `total > 0` and
`completed = total`, else `in_progress` when some task is `in_progress`
or `completed > 0`, else the prior status is kept; and the summary holds
the phase count, the task and completed-task totals, and
`overall_progress = 100*completed_tasks/total_tasks or 0`. -/
theorem c4_recalculate_progress_spec (plan : Plan) :
    (recalculate_progress plan).phases = plan.phases.map (fun ph =>
      { ph with
        progress :=
          { completed := ph.tasks.countP (fun t => t.status = statusCompleted)
            total := ph.tasks.length
            percentage :=
              if 0 < ph.tasks.length
              then 100 * (ph.tasks.countP (fun t => t.status = statusCompleted) : ℚ) /
                ph.tasks.length
              else 0 }
        status :=
          if 0 < ph.tasks.length ∧
              ph.tasks.countP (fun t => t.status = statusCompleted) = ph.tasks.length
          then statusCompleted
          else if (∃ t ∈ ph.tasks, t.status = statusInProgress) ∨
              0 < ph.tasks.countP (fun t => t.status = statusCompleted)
          then statusInProgress
          else ph.status })
    ∧ (recalculate_progress plan).summary =
      { total_phases := plan.phases.length
        total_tasks := (plan.phases.map fun ph => ph.tasks.length).sum
        completed_tasks :=
          (plan.phases.map fun ph => ph.tasks.countP (fun t => t.status = statusCompleted)).sum
        overall_progress :=
          if 0 < (plan.phases.map fun ph => ph.tasks.length).sum
          then 100 *
            ((plan.phases.map fun ph =>
              ph.tasks.countP (fun t => t.status = statusCompleted)).sum : ℚ) /
            (plan.phases.map fun ph => ph.tasks.length).sum
          else 0 } := by
  constructor
  · show plan.phases.map recalcPhase = _
    apply List.map_congr_left
    intro ph _
    unfold recalcPhase
    simp only [List.countP_eq_length_filter]
    congr 1
    · refine if_congr ?_ rfl (if_congr ?_ rfl rfl)
      · simp only [Bool.and_eq_true, decide_eq_true_eq, gt_iff_lt]
        tauto
      · simp only [Bool.or_eq_true, List.any_eq_true, decide_eq_true_eq, gt_iff_lt]
    · congr 1
      refine if_congr gt_iff_lt ?_ rfl
      ring
  · simp only [recalculate_progress, List.countP_eq_length_filter]
    congr 1
    refine if_congr gt_iff_lt ?_ rfl
    push_cast
    simp only [List.map_map, Function.comp_def]
    ring

/-! ## Claim C5: cyclic dependency chains -/

/-- C5.  For every plan and every set `C` of ids forming a pending
dependency cycle (each task carrying an id in `C` is pending and depends
on some id in `C`, and every id in `C` belongs to some task of the
plan), `get_next_task` never returns a task of the cycle; and whenever a
scannable phase holds a pending task all of whose dependency ids resolve
only to completed tasks, `get_next_task` still returns some task, which
is then outside the cycle.  The embedding is total, so no input makes
the scan crash. -/
theorem c5_cycle_never_returned (plan : Plan) (C : List Str)
    (hmem : ∀ c ∈ C, ∃ ph ∈ plan.phases, ∃ t ∈ ph.tasks, t.id = c)
    (hcyc : ∀ ph ∈ plan.phases, ∀ t ∈ ph.tasks, t.id ∈ C →
      t.status = statusPending ∧ ∃ d ∈ t.depends_on, d ∈ C) :
    (∀ ph t, get_next_task plan = some (ph, t) → t.id ∉ C)
    ∧ (∀ ph ∈ plan.phases, ¬(ph.status = statusCompleted ∨ ph.status = statusSkipped) →
        ∀ t ∈ ph.tasks, t.status = statusPending →
        (∀ d ∈ t.depends_on, ∀ ph2 ∈ plan.phases, ∀ u ∈ ph2.tasks,
          u.id = d → u.status = statusCompleted) →
        ∃ ph3 t3, get_next_task plan = some (ph3, t3) ∧ t3.id ∉ C) := by
  have part1 : ∀ ph t, get_next_task plan = some (ph, t) → t.id ∉ C := by
    intro ph t hret hidC
    unfold get_next_task at hret
    obtain ⟨phase, hphase, hsome⟩ := List.exists_of_findSome?_eq_some hret
    split at hsome
    · exact Option.noConfusion hsome
    rcases Option.map_eq_some'.mp hsome with ⟨t2, hnext, heq⟩
    replace heq := heq.symm
    injection heq with h1 h2
    subst h1
    subst h2
    unfold nextInPhase at hnext
    obtain ⟨tk, htk, hsome2⟩ := List.exists_of_findSome?_eq_some hnext
    split at hsome2
    · next hprog =>
      cases hsome2
      rcases hcyc ph hphase t htk hidC with ⟨hpend, _⟩
      rw [hpend] at hprog
      exact absurd hprog (by decide)
    split at hsome2
    · next hcond =>
      cases hsome2
      rcases hcyc ph hphase t htk hidC with ⟨hpend, d, hd, hdC⟩
      have hmet : allDepsMet plan t = true := by
        simp only [Bool.and_eq_true] at hcond
        exact hcond.2
      rcases hmem d hdC with ⟨ph2, hph2, u, hu, huid⟩
      rcases hcyc ph2 hph2 u hu (huid ▸ hdC) with ⟨hupend, _⟩
      have hunmet : depUnmet plan d = true := by
        unfold depUnmet
        rw [List.any_eq_true]
        refine ⟨ph2, hph2, ?_⟩
        rw [List.any_eq_true]
        refine ⟨u, hu, ?_⟩
        simp only [Bool.and_eq_true, decide_eq_true_eq]
        refine ⟨huid, ?_⟩
        rw [hupend]
        decide
      unfold allDepsMet at hmet
      rw [List.all_eq_true] at hmet
      have := hmet d hd
      rw [hunmet] at this
      exact absurd this (by decide)
    · exact Option.noConfusion hsome2
  refine ⟨part1, ?_⟩
  intro ph hph hnskip t ht hpend hdeps
  have hfmet : allDepsMet plan t = true := by
    unfold allDepsMet
    rw [List.all_eq_true]
    intro d hd
    have hnone : depUnmet plan d = false := by
      unfold depUnmet
      rw [← Bool.not_eq_true, List.any_eq_true]
      rintro ⟨ph2, hph2, hany⟩
      rw [List.any_eq_true] at hany
      rcases hany with ⟨u, hu, hcond⟩
      simp only [Bool.and_eq_true, decide_eq_true_eq] at hcond
      have := hdeps d hd ph2 hph2 u hu hcond.1
      rw [this] at hcond
      exact absurd hcond.2 (by decide)
    rw [hnone]
    decide
  have hyield : nextInPhase plan ph ≠ none := by
    unfold nextInPhase
    intro hnone
    rw [List.findSome?_eq_none_iff] at hnone
    have hthis := hnone t ht
    rw [if_neg (by rw [hpend]; decide),
      if_pos (by rw [Bool.and_eq_true]; exact ⟨by rw [hpend]; decide, hfmet⟩)] at hthis
    exact Option.noConfusion hthis
  have hsome : (get_next_task plan).isSome = true := by
    rw [Option.isSome_iff_ne_none]
    unfold get_next_task
    intro hnone
    rw [List.findSome?_eq_none_iff] at hnone
    have hthis := hnone ph hph
    rw [if_neg (by simp only [Bool.or_eq_true, decide_eq_true_eq]; exact hnskip)] at hthis
    exact hyield (Option.map_eq_none'.mp hthis)
  obtain ⟨⟨ph3, t3⟩, hval⟩ := Option.isSome_iff_exists.mp hsome
  exact ⟨ph3, t3, hval, part1 ph3 t3 hval⟩

/-- C5 witness: the 2-cycle `0.1.1 <-> 0.1.2` next to the independent
task `0.1.3`. -/
theorem c5_cycle_never_returned_witness :
    (∀ ph t, get_next_task exPlanC5 = some (ph, t) → t.id ∉ exCycleC5)
    ∧ (∀ ph ∈ exPlanC5.phases, ¬(ph.status = statusCompleted ∨ ph.status = statusSkipped) →
        ∀ t ∈ ph.tasks, t.status = statusPending →
        (∀ d ∈ t.depends_on, ∀ ph2 ∈ exPlanC5.phases, ∀ u ∈ ph2.tasks,
          u.id = d → u.status = statusCompleted) →
        ∃ ph3 t3, get_next_task exPlanC5 = some (ph3, t3) ∧ t3.id ∉ exCycleC5) :=
  c5_cycle_never_returned exPlanC5 exCycleC5 (by decide) (by decide)

/-! ## Claim C10: phase ordering on save -/

/-- C10.  After `save_plan`, for a plan whose phase ids are integral or
reserved, the stored phase sequence satisfies the ordering invariant:
no reserved phase precedes an integer phase (so integer phases come
first), integer phases appear in ascending numeric order, and reserved
phases appear in the fixed order `bugs, ideas, deferred` (their indices
in `SPECIAL_PHASE_ORDER` are nondecreasing). -/
theorem phaseKeyLe_trans (a b c : Phase) (h1 : phaseKeyLe a b = true)
    (h2 : phaseKeyLe b c = true) : phaseKeyLe a c = true := by
  simp only [phaseKeyLe, Bool.or_eq_true, Bool.and_eq_true, decide_eq_true_eq] at h1 h2 ⊢
  omega

theorem phaseKeyLe_total (a b : Phase) : (phaseKeyLe a b || phaseKeyLe b a) = true := by
  simp only [phaseKeyLe, Bool.or_eq_true, Bool.and_eq_true, decide_eq_true_eq]
  omega

theorem special_not_numeric : ∀ pid ∈ SPECIAL_PHASE_IDS, pyToInt? pid = none := by decide

theorem c10_phase_ordering (plan : Plan)
    (h : ∀ ph ∈ plan.phases, ph.id ∈ SPECIAL_PHASE_IDS ∨ (pyToInt? ph.id).isSome) :
    List.Pairwise (fun p q =>
      (p.id ∈ SPECIAL_PHASE_IDS → q.id ∈ SPECIAL_PHASE_IDS ∧
        specialOrderIndex p.id ≤ specialOrderIndex q.id)
      ∧ ∀ a b : Int, pyToInt? p.id = some a → pyToInt? q.id = some b → a ≤ b)
      (save_plan plan).phases := by
  show List.Pairwise _ ((plan.phases.mergeSort phaseKeyLe).map recalcPhase)
  rw [List.pairwise_map]
  have hsorted : List.Pairwise (fun a b => phaseKeyLe a b = true)
      (plan.phases.mergeSort phaseKeyLe) :=
    List.sorted_mergeSort phaseKeyLe_trans phaseKeyLe_total plan.phases
  refine hsorted.imp_of_mem ?_
  intro a b ha hb hle
  have ha2 : a ∈ plan.phases := (List.mergeSort_perm plan.phases phaseKeyLe).mem_iff.mp ha
  have hb2 : b ∈ plan.phases := (List.mergeSort_perm plan.phases phaseKeyLe).mem_iff.mp hb
  have hida : (recalcPhase a).id = a.id := rfl
  have hidb : (recalcPhase b).id = b.id := rfl
  rw [hida, hidb]
  simp only [phaseKeyLe, Bool.or_eq_true, Bool.and_eq_true, decide_eq_true_eq] at hle
  constructor
  · intro hsp
    have hka : phase_sort_key a = (1, (specialOrderIndex a.id : Int)) := by
      simp only [phase_sort_key, if_pos hsp]
    rcases h b hb2 with hbsp | hbnum
    · have hkb : phase_sort_key b = (1, (specialOrderIndex b.id : Int)) := by
        simp only [phase_sort_key, if_pos hbsp]
      rw [hka, hkb] at hle
      simp only at hle
      refine ⟨hbsp, ?_⟩
      omega
    · rcases Option.isSome_iff_exists.mp hbnum with ⟨bv, hbv⟩
      have hbnsp : b.id ∉ SPECIAL_PHASE_IDS := by
        intro hmem
        rw [special_not_numeric b.id hmem] at hbv
        exact Option.noConfusion hbv
      have hkb : phase_sort_key b = (0, bv) := by
        simp only [phase_sort_key, if_neg hbnsp, hbv]
      rw [hka, hkb] at hle
      simp only at hle
      omega
  · intro av bv hav hbv
    have hansp : a.id ∉ SPECIAL_PHASE_IDS := by
      intro hmem
      rw [special_not_numeric a.id hmem] at hav
      exact Option.noConfusion hav
    have hbnsp : b.id ∉ SPECIAL_PHASE_IDS := by
      intro hmem
      rw [special_not_numeric b.id hmem] at hbv
      exact Option.noConfusion hbv
    have hka : phase_sort_key a = (0, av) := by
      simp only [phase_sort_key, if_neg hansp, hav]
    have hkb : phase_sort_key b = (0, bv) := by
      simp only [phase_sort_key, if_neg hbnsp, hbv]
    rw [hka, hkb] at hle
    simp only at hle
    omega

/-- C10 witness: saving a plan stored as
`deferred, 2, bugs, 0, ideas` satisfies the pairwise ordering
invariant. -/
theorem c10_phase_ordering_witness :
    List.Pairwise (fun p q =>
      (p.id ∈ SPECIAL_PHASE_IDS → q.id ∈ SPECIAL_PHASE_IDS ∧
        specialOrderIndex p.id ≤ specialOrderIndex q.id)
      ∧ ∀ a b : Int, pyToInt? p.id = some a → pyToInt? q.id = some b → a ≤ b)
      (save_plan exPlanC10).phases :=
  c10_phase_ordering exPlanC10 (by decide)

/-! ## Claim C2: task relocation (defer and dashboard move) -/

theorem findSome?_cons_eq {α β} (f : α → Option β) (a : α) (l : List α) :
    List.findSome? f (a :: l) = match f a with | some b => some b | none => List.findSome? f l :=
  rfl

theorem find_task_decomp (phases : List Phase) (tid : Str) (ph : Phase) (task : Task)
    (h : phases.findSome?
      (fun phase => (phase.tasks.find? fun t => t.id = tid).map fun t => (phase, t)) =
        some (ph, task)) :
    ∃ pre post, phases = pre ++ ph :: post ∧
      (∀ p ∈ pre, p.tasks.find? (fun t => t.id = tid) = none) ∧
      ph.tasks.find? (fun t => t.id = tid) = some task := by
  induction phases with
  | nil => exact absurd h (by simp)
  | cons q rest ih =>
    rw [findSome?_cons_eq] at h
    rcases hq : q.tasks.find? (fun t => t.id = tid) with _ | t0 <;> rw [hq] at h
    · simp only [Option.map_none'] at h
      rcases ih h with ⟨pre, post, hdecomp, hpre, hfind⟩
      exact ⟨q :: pre, post, by rw [hdecomp]; rfl,
        fun p hp => by
          rcases List.mem_cons.mp hp with rfl | hp2
          · exact hq
          · exact hpre p hp2, hfind⟩
    · simp only [Option.map_some'] at h
      injection h with h1
      injection h1 with h2 h3
      subst h2
      subst h3
      exact ⟨[], rest, rfl, by simp, hq⟩

theorem removeFirstTask_eq (tid : Str) (ph : Phase) (task : Task) :
    ∀ pre post, (∀ p ∈ pre, p.tasks.find? (fun t => t.id = tid) = none) →
      ph.tasks.find? (fun t => t.id = tid) = some task →
      removeFirstTask tid (pre ++ ph :: post) =
        (pre ++ ({ ph with tasks := ph.tasks.eraseP fun u => u.id = tid }) :: post, some task) := by
  intro pre
  induction pre with
  | nil =>
    intro post _ hph
    simp only [List.nil_append]
    unfold removeFirstTask
    rw [hph]
  | cons q rest ih =>
    intro post hpre hph
    have hq : q.tasks.find? (fun t => t.id = tid) = none := hpre q (List.mem_cons_self q rest)
    have hrest : ∀ p ∈ rest, p.tasks.find? (fun t => t.id = tid) = none :=
      fun p hp => hpre p (List.mem_cons_of_mem q hp)
    simp only [List.cons_append]
    unfold removeFirstTask
    rw [hq, ih post hrest hph]

theorem filterFirstTask_eq (tid : Str) (ph : Phase) (task : Task) :
    ∀ pre post, (∀ p ∈ pre, p.tasks.find? (fun t => t.id = tid) = none) →
      ph.tasks.find? (fun t => t.id = tid) = some task →
      filterFirstTask tid (pre ++ ph :: post) =
        (pre ++ ({ ph with tasks := ph.tasks.filter fun u => u.id ≠ tid }) :: post, some task) := by
  intro pre
  induction pre with
  | nil =>
    intro post _ hph
    simp only [List.nil_append]
    unfold filterFirstTask
    rw [hph]
  | cons q rest ih =>
    intro post hpre hph
    have hq : q.tasks.find? (fun t => t.id = tid) = none := hpre q (List.mem_cons_self q rest)
    have hrest : ∀ p ∈ rest, p.tasks.find? (fun t => t.id = tid) = none :=
      fun p hp => hpre p (List.mem_cons_of_mem q hp)
    simp only [List.cons_append]
    unfold filterFirstTask
    rw [hq, ih post hrest hph]

theorem updateFirstPhase_decomp (pid : Str) (f : Phase → Phase) (ph : Phase) :
    ∀ pre post, (∀ p ∈ pre, ¬p.id = pid) → ph.id = pid →
      updateFirstPhase pid f (pre ++ ph :: post) = pre ++ f ph :: post := by
  intro pre
  induction pre with
  | nil =>
    intro post _ hph
    simp only [List.nil_append]
    unfold updateFirstPhase
    rw [if_pos hph]
  | cons q rest ih =>
    intro post hpre hph
    have hq : ¬q.id = pid := hpre q (List.mem_cons_self q rest)
    have hrest : ∀ p ∈ rest, ¬p.id = pid := fun p hp => hpre p (List.mem_cons_of_mem q hp)
    simp only [List.cons_append]
    unfold updateFirstPhase
    rw [if_neg hq, ih post hrest hph]

theorem exists_first_with_id (pid : Str) :
    ∀ phases : List Phase, (∃ p ∈ phases, p.id = pid) →
      ∃ pre ph post, phases = pre ++ ph :: post ∧ (∀ p ∈ pre, ¬p.id = pid) ∧ ph.id = pid := by
  intro phases
  induction phases with
  | nil => rintro ⟨p, hp, _⟩; exact absurd hp (by simp)
  | cons q rest ih =>
    rintro ⟨p, hp, hpid⟩
    by_cases hq : q.id = pid
    · exact ⟨[], q, rest, rfl, by simp, hq⟩
    · rcases List.mem_cons.mp hp with rfl | hp2
      · exact absurd hpid hq
      · rcases ih ⟨p, hp2, hpid⟩ with ⟨pre, ph, post, hdecomp, hpre, hph⟩
        exact ⟨q :: pre, ph, post, by rw [hdecomp]; rfl,
          fun r hr => by
            rcases List.mem_cons.mp hr with rfl | hr2
            · exact hq
            · exact hpre r hr2, hph⟩

theorem find?_first_match (p : Phase → Bool) (x : Phase) :
    ∀ pre post, (∀ a ∈ pre, p a = false) → p x = true →
      (pre ++ x :: post).find? p = some x := by
  intro pre
  induction pre with
  | nil =>
    intro post _ hx
    simp [List.find?_cons, hx]
  | cons q rest ih =>
    intro post hpre hx
    have hq : p q = false := hpre q (List.mem_cons_self q rest)
    simp only [List.cons_append, List.find?_cons, hq]
    exact ih post (fun a ha => hpre a (List.mem_cons_of_mem q ha)) hx

theorem ensurePhase_exists (init : Phase) (phases : List Phase) :
    ∃ p ∈ ensurePhase init phases, p.id = init.id := by
  unfold ensurePhase
  by_cases hany : (phases.any fun p => p.id = init.id) = true
  · rw [if_pos hany]
    rcases List.any_eq_true.mp hany with ⟨p, hp, hpid⟩
    exact ⟨p, hp, of_decide_eq_true hpid⟩
  · rw [if_neg hany]
    exact ⟨init, by simp, rfl⟩

/-- C2 counterexample.  Deferring task `0.1.1`, whose `depends_on` is
`["0.0.0"]`, leaves the relocated task's `depends_on` equal to
`["0.0.0"]`: `cmd_defer` does not clear dependencies, contradicting the
claim that every relocation clears `depends_on` to the empty list. -/
theorem c2_counterexample_defer_keeps_depends_on :
    (cmd_defer exPlanC2 (str "0.1.1")).bind deferredLastDeps = some [str "0.0.0"]
      ∧ [str "0.0.0"] ≠ ([] : List Str) :=
  ⟨rfl, by decide⟩

/-- C2 amended.  Both relocators remove the task from its source phase
and append it, carrying a fresh id and otherwise identical fields, to
the target phase: `cmd_defer` erases the first task with the id from the
source phase and appends `{task with id := fresh}` to the `deferred`
phase with `depends_on` preserved unchanged, while the dashboard
`_move_task` filters the id out of the source phase and appends
`{task with id := fresh, depends_on := []}` — only the dashboard move
clears the dependencies. -/
theorem c2_relocation_amended (plan : Plan) (tid : Str) (oldPh : Phase) (task : Task)
    (hfind : find_task plan tid = some (oldPh, task)) :
    (∃ plan2, cmd_defer plan tid = some plan2
      ∧ (∃ ph2, find_phase plan2 (str "deferred") = some ph2 ∧
          ∃ newId, ph2.tasks.getLast? = some { task with id := newId }
            ∧ ({ task with id := newId } : Task).depends_on = task.depends_on)
      ∧ (¬oldPh.id = str "deferred" →
          { oldPh with tasks := oldPh.tasks.eraseP fun u => u.id = tid } ∈ plan2.phases))
    ∧ ∀ target, ∃ plan3, move_task plan tid target = some plan3
      ∧ (∃ ph3, find_phase plan3 target = some ph3 ∧
          ∃ newId2, ph3.tasks.getLast? = some { task with id := newId2, depends_on := [] })
      ∧ (¬oldPh.id = target →
          { oldPh with tasks := oldPh.tasks.filter fun u => u.id ≠ tid } ∈ plan3.phases) := by
  obtain ⟨pre, post, hdecomp, hpre, hph⟩ := find_task_decomp plan.phases tid oldPh task hfind
  constructor
  · obtain ⟨post1, hdecomp1⟩ :
        ∃ post1, ensurePhase deferInit plan.phases = pre ++ oldPh :: post1 := by
      unfold ensurePhase
      by_cases hany : (plan.phases.any fun p => p.id = deferInit.id) = true
      · rw [if_pos hany]; exact ⟨post, hdecomp⟩
      · rw [if_neg hany]; exact ⟨post ++ [deferInit], by rw [hdecomp]; simp⟩
    have hremove : removeFirstTask tid (ensurePhase deferInit plan.phases) =
        (pre ++ ({ oldPh with tasks := oldPh.tasks.eraseP fun u => u.id = tid }) :: post1,
          some task) := by
      rw [hdecomp1]
      exact removeFirstTask_eq tid oldPh task pre post1 hpre hph
    have hexists : ∃ p ∈ (pre ++
        ({ oldPh with tasks := oldPh.tasks.eraseP fun u => u.id = tid }) :: post1),
        p.id = str "deferred" := by
      rcases ensurePhase_exists deferInit plan.phases with ⟨p, hp, hpid⟩
      rw [hdecomp1] at hp
      rcases List.mem_append.mp hp with hp1 | hp1
      · exact ⟨p, List.mem_append_left _ hp1, hpid⟩
      · rcases List.mem_cons.mp hp1 with rfl | hp2
        · exact ⟨{ p with tasks := p.tasks.eraseP fun u => u.id = tid },
            List.mem_append_right _ (List.mem_cons_self _ _), hpid⟩
        · exact ⟨p, List.mem_append_right _ (List.mem_cons_of_mem _ hp2), hpid⟩
    obtain ⟨pre2, defPh, post2, hdecomp2, hpre2, hdefid⟩ :=
      exists_first_with_id (str "deferred") _ hexists
    refine ⟨_, by simp only [cmd_defer, hremove]; rfl, ?_, ?_⟩
    · refine ⟨{ defPh with
          tasks := defPh.tasks ++ [{ task with id := deferNewId defPh.tasks }] }, ?_,
        deferNewId defPh.tasks, ?_, rfl⟩
      · show find_phase _ _ = _
        unfold find_phase
        show (updateFirstPhase (str "deferred") _ _).find? _ = _
        rw [hdecomp2, updateFirstPhase_decomp _ _ defPh pre2 post2 hpre2 hdefid]
        exact find?_first_match _ _ pre2 post2
          (fun a ha => decide_eq_false (hpre2 a ha)) (decide_eq_true hdefid)
      · show (defPh.tasks ++ [{ task with id := deferNewId defPh.tasks }]).getLast? = _
        exact List.getLast?_concat _
    · intro hneq
      show _ ∈ updateFirstPhase (str "deferred") _ _
      rw [hdecomp2, updateFirstPhase_decomp _ _ defPh pre2 post2 hpre2 hdefid]
      have hmem : ({ oldPh with tasks := oldPh.tasks.eraseP fun u => u.id = tid } : Phase) ∈
          pre2 ++ defPh :: post2 := by
        rw [← hdecomp2]
        exact List.mem_append_right _ (List.mem_cons_self _ _)
      rcases List.mem_append.mp hmem with hm | hm
      · exact List.mem_append_left _ hm
      · rcases List.mem_cons.mp hm with heq | hm2
        · have hid := congrArg Phase.id heq
          exact absurd (hid.trans hdefid) hneq
        · exact List.mem_append_right _ (List.mem_cons_of_mem _ hm2)
  · intro target
    obtain ⟨post1, hdecomp1⟩ :
        ∃ post1, ensurePhase (moveInit target) plan.phases = pre ++ oldPh :: post1 := by
      unfold ensurePhase
      by_cases hany : (plan.phases.any fun p => p.id = (moveInit target).id) = true
      · rw [if_pos hany]; exact ⟨post, hdecomp⟩
      · rw [if_neg hany]; exact ⟨post ++ [moveInit target], by rw [hdecomp]; simp⟩
    have hfilter : filterFirstTask tid (ensurePhase (moveInit target) plan.phases) =
        (pre ++ ({ oldPh with tasks := oldPh.tasks.filter fun u => u.id ≠ tid }) :: post1,
          some task) := by
      rw [hdecomp1]
      exact filterFirstTask_eq tid oldPh task pre post1 hpre hph
    have hexists : ∃ p ∈ (pre ++
        ({ oldPh with tasks := oldPh.tasks.filter fun u => u.id ≠ tid }) :: post1),
        p.id = target := by
      rcases ensurePhase_exists (moveInit target) plan.phases with ⟨p, hp, hpid⟩
      rw [hdecomp1] at hp
      rcases List.mem_append.mp hp with hp1 | hp1
      · exact ⟨p, List.mem_append_left _ hp1, hpid⟩
      · rcases List.mem_cons.mp hp1 with rfl | hp2
        · exact ⟨{ p with tasks := p.tasks.filter fun u => u.id ≠ tid },
            List.mem_append_right _ (List.mem_cons_self _ _), hpid⟩
        · exact ⟨p, List.mem_append_right _ (List.mem_cons_of_mem _ hp2), hpid⟩
    obtain ⟨pre2, tgtPh, post2, hdecomp2, hpre2, htgtid⟩ :=
      exists_first_with_id target _ hexists
    have hguard : (find_task plan tid).isSome = true := by rw [hfind]; rfl
    refine ⟨_, by simp only [move_task, hguard, if_pos, hfilter]; rfl, ?_, ?_⟩
    · refine ⟨{ tgtPh with
          tasks := tgtPh.tasks ++
            [{ task with id := moveNewId target tgtPh.tasks, depends_on := [] }] }, ?_,
        moveNewId target tgtPh.tasks, ?_⟩
      · show find_phase _ _ = _
        unfold find_phase
        show (updateFirstPhase target _ _).find? _ = _
        rw [hdecomp2, updateFirstPhase_decomp _ _ tgtPh pre2 post2 hpre2 htgtid]
        exact find?_first_match _ _ pre2 post2
          (fun a ha => decide_eq_false (hpre2 a ha)) (decide_eq_true htgtid)
      · show (tgtPh.tasks ++
            [{ task with id := moveNewId target tgtPh.tasks, depends_on := [] }]).getLast? = _
        exact List.getLast?_concat _
    · intro hneq
      show _ ∈ updateFirstPhase target _ _
      rw [hdecomp2, updateFirstPhase_decomp _ _ tgtPh pre2 post2 hpre2 htgtid]
      have hmem : ({ oldPh with tasks := oldPh.tasks.filter fun u => u.id ≠ tid } : Phase) ∈
          pre2 ++ tgtPh :: post2 := by
        rw [← hdecomp2]
        exact List.mem_append_right _ (List.mem_cons_self _ _)
      rcases List.mem_append.mp hmem with hm | hm
      · exact List.mem_append_left _ hm
      · rcases List.mem_cons.mp hm with heq | hm2
        · have hid := congrArg Phase.id heq
          exact absurd (hid.trans htgtid) hneq
        · exact List.mem_append_right _ (List.mem_cons_of_mem _ hm2)


/-- C2 witness: relocating `0.1.1` out of `exPlanC2`, by defer and by
dashboard move. -/
theorem c2_relocation_amended_witness :
    (∃ plan2, cmd_defer exPlanC2 (str "0.1.1") = some plan2
      ∧ (∃ ph2, find_phase plan2 (str "deferred") = some ph2 ∧
          ∃ newId, ph2.tasks.getLast? = some { exTaskC2 with id := newId }
            ∧ ({ exTaskC2 with id := newId } : Task).depends_on = exTaskC2.depends_on)
      ∧ (¬exOldPhC2.id = str "deferred" →
          { exOldPhC2 with tasks := exOldPhC2.tasks.eraseP fun u => u.id = str "0.1.1" }
            ∈ plan2.phases))
    ∧ ∀ target, ∃ plan3, move_task exPlanC2 (str "0.1.1") target = some plan3
      ∧ (∃ ph3, find_phase plan3 target = some ph3 ∧
          ∃ newId2, ph3.tasks.getLast? = some { exTaskC2 with id := newId2, depends_on := [] })
      ∧ (¬exOldPhC2.id = target →
          { exOldPhC2 with tasks := exOldPhC2.tasks.filter fun u => u.id ≠ str "0.1.1" }
            ∈ plan3.phases) :=
  c2_relocation_amended exPlanC2 (str "0.1.1") exOldPhC2 exTaskC2 rfl

end PV
